import Mathlib

/-!
Shallow embedding of the TelServ telnet server (telserv/clienthandler.py and
telserv/server.py): the option-negotiation engine (`ClientOptions.iac`,
`iac_one`, `iac_sb`), the two event tables (`ClientOptions.on` and
`ClientHandler.on`), the session-pool housekeeping (`__clean_dead_threads`),
shutdown (`TelnetServer.stop`) and the listener socket setup.

Bytes are modelled as natural numbers and byte strings as lists of naturals.
Reading from the `io.BytesIO` cursor is modelled by structural recursion on
the list of still-unread bytes.  Python paths that raise (`IndexError` on
indexing an empty read, `struct.error` on unpacking a short buffer) are
modelled as `none` of an `Option`-valued result.  Event dispatch
(`__dispatch_event`) is modelled by returning the list of event keys
published, in publication order.
-/

/-- Modelled from the spec: the enumeration `TelnetCommands` is defined in
`telserv/telnet_860.py`, which is not among the provided sources.  Per the
spec's wire-protocol section the vocabulary is an escape marker and six
commands: IAC (0xFF per the concrete scenarios), the four negotiation
commands DO (0xFD, scenario 1), DONT, WILL (0xFB, scenario 2), WONT, and
the subnegotiation opener SB (0xFA, scenario 3) and terminator SE (0xF0);
DONT and WONT take the standard values 0xFE and 0xFC, consistent with the
DONT reply bytes the spec specifies for WONT units. -/
inductive TelnetCommands where
  | SE
  | SB
  | WILL
  | WONT
  | DO
  | DONT
  | IAC
deriving DecidableEq, Repr

/-- The wire byte of each command (the Python enum member's `.value`). -/
def TelnetCommands.value : TelnetCommands → Nat
  | .SE => 240
  | .SB => 250
  | .WILL => 251
  | .WONT => 252
  | .DO => 253
  | .DONT => 254
  | .IAC => 255

/-- The fallible conversion `TelnetCommands(byte)`: `some` on a recognized
command byte, `none` for the `ValueError` path. -/
def TelnetCommands.fromByte : Nat → Option TelnetCommands
  | 240 => some .SE
  | 250 => some .SB
  | 251 => some .WILL
  | 252 => some .WONT
  | 253 => some .DO
  | 254 => some .DONT
  | 255 => some .IAC
  | _ => none

/-- Modelled from the spec: the enumeration `TelnetOptions` is defined in
`telserv/telnet_860.py`, which is not among the provided sources.  The spec
fixes the option identifier space as local-echo (0x01, scenario 1),
suppress-go-ahead (standard value 0x03) and window-size (0x1F, scenarios
2 and 3); every other byte is unrecognized (scenario 4 uses 0x63 as an
unrecognized option id). -/
inductive TelnetOptions where
  | ECHO
  | SUPPRESS_GO_AHEAD
  | NEGOTIATE_ABOUT_WINDOW_SIZE
deriving DecidableEq, Repr

/-- The wire byte of each option (the Python enum member's `.value`). -/
def TelnetOptions.value : TelnetOptions → Nat
  | .ECHO => 1
  | .SUPPRESS_GO_AHEAD => 3
  | .NEGOTIATE_ABOUT_WINDOW_SIZE => 31

/-- The fallible conversion `TelnetOptions(byte)`: `some` on a recognized
option byte, `none` for the `ValueError` path. -/
def TelnetOptions.fromByte : Nat → Option TelnetOptions
  | 1 => some .ECHO
  | 3 => some .SUPPRESS_GO_AHEAD
  | 31 => some .NEGOTIATE_ABOUT_WINDOW_SIZE
  | _ => none

/-- The `self.opts` dictionary of `ClientOptions`: the `"window_size"` entry
(initialised to `(0,0)`) plus one optional boolean per recognized option
(`none` while the key is absent from the dictionary). -/
structure OptionState where
  window_size : Nat × Nat
  echo : Option Bool
  suppress_go_ahead : Option Bool
  negotiate_about_window_size : Option Bool
deriving DecidableEq, Repr

/-- `ClientOptions.__init__` with no overrides: window size `(0,0)`, no
option keys declared. -/
def OptionState.init : OptionState :=
  { window_size := (0, 0)
    echo := none
    suppress_go_ahead := none
    negotiate_about_window_size := none }

/-- The dictionary write `self.opts[opt] = b` for a recognized option key. -/
def OptionState.set (st : OptionState) (opt : TelnetOptions) (b : Bool) : OptionState :=
  match opt with
  | .ECHO => { st with echo := some b }
  | .SUPPRESS_GO_AHEAD => { st with suppress_go_ahead := some b }
  | .NEGOTIATE_ABOUT_WINDOW_SIZE => { st with negotiate_about_window_size := some b }

/-- `ClientOptions.iac_one`: applies one recognized negotiation command to
the option state and returns the updated state together with the reply
bytes (`IAC DO opt` for WILL, `IAC DONT opt` for WONT, empty otherwise). -/
def ClientOptions.iac_one (st : OptionState) (cmd : TelnetCommands) (opt : TelnetOptions) :
    OptionState × List Nat :=
  if cmd = .DO then (st.set opt true, [])
  else if cmd = .DONT then (st.set opt false, [])
  else if cmd = .WILL then
    (st.set opt true, [TelnetCommands.IAC.value, TelnetCommands.DO.value, opt.value])
  else if cmd = .WONT then
    (st.set opt false, [TelnetCommands.IAC.value, TelnetCommands.DONT.value, opt.value])
  else (st, [])

/-- The scan loop of `ClientOptions.iac_sb` (`d = data.read(1); while d[0]
!= SE: d = data.read(1)`): consumes bytes up to and including the first
byte equal to SE and returns the unread remainder; `none` models the
`IndexError` raised when the buffer is exhausted first. -/
def ClientOptions.scanUntilSE : List Nat → Option (List Nat)
  | [] => none
  | b :: rest =>
    if b = TelnetCommands.SE.value then some rest else ClientOptions.scanUntilSE rest

/-- `ClientOptions.iac_sb`, called with the cursor just past `IAC SB`.
Returns `(state, reply bytes, published events, unread remainder)`; `none`
models the raising paths (`IndexError` from the scan loop on an exhausted
buffer, `struct.error` from `struct.unpack(">HH", ...)` on fewer than 4
payload bytes).  For the window-size option it reads two big-endian 16-bit
integers, stores them, skips up to two further bytes without checking
them, and publishes the window-size event. -/
def ClientOptions.iac_sb (st : OptionState) (data : List Nat) :
    Option (OptionState × List Nat × List TelnetOptions × List Nat) :=
  match data with
  | [] => none
  | b :: rest =>
    match TelnetOptions.fromByte b with
    | none =>
      match ClientOptions.scanUntilSE rest with
      | none => none
      | some rem => some (st, [], [], rem)
    | some opt =>
      if opt = TelnetOptions.NEGOTIATE_ABOUT_WINDOW_SIZE then
        match rest with
        | b0 :: b1 :: b2 :: b3 :: rest2 =>
          some ({ st with window_size := (b0 * 256 + b1, b2 * 256 + b3) },
                [], [opt], rest2.drop 2)
        | _ => none
      else
        match ClientOptions.scanUntilSE rest with
        | none => none
        | some rem => some (st, [], [opt], rem)

theorem ClientOptions.scanUntilSE_length {l rem : List Nat}
    (h : ClientOptions.scanUntilSE l = some rem) : rem.length < l.length := by
  induction l with
  | nil => simp [ClientOptions.scanUntilSE] at h
  | cons b rest ih =>
    simp only [ClientOptions.scanUntilSE] at h
    split at h
    · simp only [Option.some.injEq] at h
      subst h
      simp only [List.length_cons]
      omega
    · have := ih h
      simp only [List.length_cons]
      omega

theorem ClientOptions.iac_sb_length {st : OptionState} {data : List Nat}
    {st' : OptionState} {rep : List Nat} {evs : List TelnetOptions} {rem : List Nat}
    (h : ClientOptions.iac_sb st data = some (st', rep, evs, rem)) :
    rem.length < data.length := by
  unfold ClientOptions.iac_sb at h
  split at h
  · exact absurd h (by simp)
  · rename_i b rest
    split at h
    · split at h
      · exact absurd h (by simp)
      · rename_i r hs
        simp only [Option.some.injEq, Prod.mk.injEq] at h
        obtain ⟨-, -, -, hrem⟩ := h
        subst hrem
        have := ClientOptions.scanUntilSE_length hs
        simp only [List.length_cons]
        omega
    · rename_i opt hopt
      split at h
      · split at h
        · rename_i b0 b1 b2 b3 rest2
          simp only [Option.some.injEq, Prod.mk.injEq] at h
          obtain ⟨-, -, -, hrem⟩ := h
          subst hrem
          have := List.length_drop 2 rest2
          simp only [List.length_cons] at *
          omega
        · exact absurd h (by simp)
      · split at h
        · exact absurd h (by simp)
        · rename_i r hs
          simp only [Option.some.injEq, Prod.mk.injEq] at h
          obtain ⟨-, -, -, hrem⟩ := h
          subst hrem
          have := ClientOptions.scanUntilSE_length hs
          simp only [List.length_cons]
          omega

/-- The main loop of `ClientOptions.iac` over the unread bytes.  Returns
`(final state, accumulated reply bytes, published events)`; `none` models
the raising paths (`IndexError` on a command or option read that returns
an empty string, and the raising paths of `iac_sb`).  Stops, returning
what was accumulated, when the buffer is exhausted or the next byte is not
the IAC escape marker. -/
def ClientOptions.iacLoop (st : OptionState) (data : List Nat) :
    Option (OptionState × List Nat × List TelnetOptions) :=
  match data with
  | [] => some (st, [], [])
  | b :: rest =>
    if b = TelnetCommands.IAC.value then
      match rest with
      | [] => none
      | c :: rest2 =>
        match TelnetCommands.fromByte c with
        | none => ClientOptions.iacLoop st rest2
        | some cmd =>
          if cmd = .DO ∨ cmd = .DONT ∨ cmd = .WILL ∨ cmd = .WONT then
            match rest2 with
            | [] => none
            | o :: rest3 =>
              match TelnetOptions.fromByte o with
              | none => ClientOptions.iacLoop st rest3
              | some opt =>
                match ClientOptions.iac_one st cmd opt with
                | (st1, rep) =>
                  match ClientOptions.iacLoop st1 rest3 with
                  | none => none
                  | some (st2, rep2, evs2) => some (st2, rep ++ rep2, opt :: evs2)
          else if cmd = .SB then
            match hsb : ClientOptions.iac_sb st rest2 with
            | none => none
            | some (st1, rep, evs, rem) =>
              match ClientOptions.iacLoop st1 rem with
              | none => none
              | some (st2, rep2, evs2) => some (st2, rep ++ rep2, evs ++ evs2)
          else ClientOptions.iacLoop st rest2
    else some (st, [], [])
termination_by data.length
decreasing_by
  all_goals simp only [List.length_cons]
  all_goals try omega
  have := ClientOptions.iac_sb_length hsb
  omega

/-- `ClientOptions.iac`: wraps the chunk in a byte cursor and runs the
negotiation loop. -/
def ClientOptions.iac (st : OptionState) (data : List Nat) :
    Option (OptionState × List Nat × List TelnetOptions) :=
  ClientOptions.iacLoop st data

/-- `ClientOptions.send_one`: the three wire bytes `IAC cmd opt`. -/
def ClientOptions.send_one (cmd : TelnetCommands) (opt : TelnetOptions) : List Nat :=
  [TelnetCommands.IAC.value, cmd.value, opt.value]

/-- `ClientOptions.send(*opts)`: concatenates `send_one` over the argument
pairs in order (`data += self.send_one(*opt)`). -/
def ClientOptions.send (opts : List (TelnetCommands × TelnetOptions)) : List Nat :=
  opts.foldl (fun data p => data ++ ClientOptions.send_one p.1 p.2) []

/-- `ClientHandler.__process_opts`: returns `False` (no negotiation
processing) when the chunk's first byte is not the escape marker, else
feeds the whole chunk to `ClientOptions.iac` and returns `True` alongside
the reply bytes to transmit.  `none` models the `IndexError` raised by
`data[0]` on an empty chunk and the raising paths of `iac`. -/
def ClientHandler.process_opts (st : OptionState) (data : List Nat) :
    Option (OptionState × List Nat × List TelnetOptions × Bool) :=
  match data with
  | [] => none
  | b :: _ =>
    if b ≠ TelnetCommands.IAC.value then some (st, [], [], false)
    else
      match ClientOptions.iac st data with
      | none => none
      | some (st', rep, evs) => some (st', rep, evs, true)

/-- The `self.event_handlers` dictionary of `ClientOptions`, as an
insertion-ordered association list from option key to the list of
subscribed callbacks; callbacks are identified abstractly by naturals. -/
def ClientOptions.on (handlers : List (TelnetOptions × List Nat))
    (opt : TelnetOptions) (f : Nat) : List (TelnetOptions × List Nat) :=
  match handlers with
  | [] => [(opt, [f])]
  | (k, fs) :: rest =>
    if k = opt then (k, fs ++ [f]) :: rest
    else (k, fs) :: ClientOptions.on rest opt f

/-- `ClientOptions.__dispatch_event`: the callbacks invoked for `opt`, in
list order (none when the key is absent). -/
def ClientOptions.dispatch_event (handlers : List (TelnetOptions × List Nat))
    (opt : TelnetOptions) : List Nat :=
  match handlers with
  | [] => []
  | (k, fs) :: rest =>
    if k = opt then fs else ClientOptions.dispatch_event rest opt

/-- The `self.events` dictionary of `ClientHandler`, as an insertion-ordered
association list from string event key to the single stored callback:
`ClientHandler.on` is the dictionary assignment `self.events[event] =
callback`, which overwrites any callback previously stored at the key. -/
def ClientHandler.on (events : List (String × Nat)) (e : String) (f : Nat) :
    List (String × Nat) :=
  match events with
  | [] => [(e, f)]
  | (k, v) :: rest =>
    if k = e then (k, f) :: rest
    else (k, v) :: ClientHandler.on rest e f

/-- `ClientHandler.__dispatch_event`: the callbacks invoked for key `e` —
the single stored callback when the key is present, none otherwise. -/
def ClientHandler.dispatch_event (events : List (String × Nat)) (e : String) :
    List Nat :=
  match events with
  | [] => []
  | (k, v) :: rest =>
    if k = e then [v] else ClientHandler.dispatch_event rest e

/-- The per-entry state of the `ClientConnection` dataclass that the pool
logic inspects: `id` stands for the connection's identity (its socket and
address objects), `hard_kill_signal` for `hard_kill_signal.is_set()`,
`thread_alive` for `client_thread.is_alive()`, and `thread_joined` records
whether `client_thread.join()` has been called. -/
structure ClientConnection where
  id : Nat
  hard_kill_signal : Bool
  thread_alive : Bool
  thread_joined : Bool
deriving DecidableEq, Repr

/-- The reap condition of `TelnetServer.__clean_dead_threads`: worker
thread exited or kill signal set. -/
def ClientConnection.isDead (c : ClientConnection) : Bool :=
  !c.thread_alive || c.hard_kill_signal

/-- The `TelnetServer` state that `stop` and the housekeeping sweep touch:
the `stop_signal` event, the `client_pool` list and whether the listening
socket has been closed. -/
structure TelnetServerState where
  stop_signal : Bool
  client_pool : List ClientConnection
  sock_closed : Bool
deriving DecidableEq, Repr

/-- `TelnetServer.stop`: returns immediately when the stop flag is already
set; otherwise sets the flag, then for every pooled client sets its hard
kill signal and joins its worker thread, then closes the listening socket.
`join()` is modelled as awaited worker termination (the worker observes the
signal and exits within a bounded time, per the spec's termination
invariant), so after it the thread is no longer alive.  The pool list
itself is not modified. -/
def TelnetServer.stop (s : TelnetServerState) : TelnetServerState :=
  if s.stop_signal then s
  else
    { stop_signal := true
      client_pool := s.client_pool.map
        (fun c => { c with hard_kill_signal := true, thread_alive := false,
                           thread_joined := true })
      sock_closed := true }

/-- The body of `TelnetServer.__clean_dead_threads`: Python's `for client
in self.client_pool: if dead: self.client_pool.remove(client)` iterates by
index over the list it is mutating, so after a removal the element that
slid into the removed slot is skipped.  `i` is the iterator's index;
`List.erase` is `list.remove` (removes the first equal element). -/
def TelnetServer.cleanDeadAux (pool : List ClientConnection) (i : Nat) :
    List ClientConnection :=
  if h : i < pool.length then
    if (pool.get ⟨i, h⟩).isDead then
      TelnetServer.cleanDeadAux (pool.erase (pool.get ⟨i, h⟩)) (i + 1)
    else TelnetServer.cleanDeadAux pool (i + 1)
  else pool
termination_by pool.length - i
decreasing_by
  · have hc : pool.get ⟨i, h⟩ ∈ pool := pool.get_mem i h
    have := List.length_erase_of_mem hc
    omega
  · omega

/-- `TelnetServer.__clean_dead_threads`: one housekeeping sweep over the
session pool. -/
def TelnetServer.cleanDeadThreads (pool : List ClientConnection) :
    List ClientConnection :=
  TelnetServer.cleanDeadAux pool 0

/-- `socket.AF_INET` (Linux value). -/
def AF_INET : Nat := 2

/-- `socket.AF_INET6` (Linux value). -/
def AF_INET6 : Nat := 10

/-- The address family chosen in `TelnetServer.__init__`: the source reads
`socket.AF_INET if not self.args['ipv6'] else socket.AF_INET` — both
branches of the conditional are `AF_INET`. -/
def TelnetServer.socketFamily (ipv6 : Bool) : Nat :=
  if ¬ipv6 then AF_INET else AF_INET

/-- The byte encoding of one well-formed negotiation unit
`IAC cmd opt`. -/
def encodeUnit (u : TelnetCommands × TelnetOptions) : List Nat :=
  [TelnetCommands.IAC.value, u.1.value, u.2.value]

/-- Stated from the spec, for comparison with `ClientOptions.iac_one`: the
per-unit effect on the option state — DO and WILL set the option true,
DONT and WONT set it false. -/
def specUnitEffect (st : OptionState) (u : TelnetCommands × TelnetOptions) : OptionState :=
  match u.1 with
  | .DO => st.set u.2 true
  | .DONT => st.set u.2 false
  | .WILL => st.set u.2 true
  | .WONT => st.set u.2 false
  | _ => st

/-- Stated from the spec, for comparison with `ClientOptions.iac_one`: the
per-unit reply — `IAC DO opt` for a WILL unit, `IAC DONT opt` for a WONT
unit, nothing for DO and DONT units. -/
def specUnitReply (u : TelnetCommands × TelnetOptions) : List Nat :=
  match u.1 with
  | .WILL => [TelnetCommands.IAC.value, TelnetCommands.DO.value, u.2.value]
  | .WONT => [TelnetCommands.IAC.value, TelnetCommands.DONT.value, u.2.value]
  | _ => []

/-- The wire encoding of a window-size subnegotiation: `IAC SB
window-size-id, width and height as big-endian 16-bit integers, IAC SE`. -/
def encodeNaws (w h : Nat) : List Nat :=
  [TelnetCommands.IAC.value, TelnetCommands.SB.value,
   TelnetOptions.NEGOTIATE_ABOUT_WINDOW_SIZE.value,
   w / 256, w % 256, h / 256, h % 256,
   TelnetCommands.IAC.value, TelnetCommands.SE.value]

/-! ## Helper lemmas -/

theorem TelnetCommands.fromByte_value_cmd (c : TelnetCommands) :
    TelnetCommands.fromByte c.value = some c := by
  cases c <;> rfl

theorem TelnetOptions.fromByte_value_opt (o : TelnetOptions) :
    TelnetOptions.fromByte o.value = some o := by
  cases o <;> rfl

theorem ClientOptions.iacLoop_nil (st : OptionState) :
    ClientOptions.iacLoop st [] = some (st, [], []) := by
  simp [ClientOptions.iacLoop]

theorem ClientOptions.iacLoop_not_iac (st : OptionState) (b : Nat) (rest : List Nat)
    (hb : b ≠ TelnetCommands.IAC.value) :
    ClientOptions.iacLoop st (b :: rest) = some (st, [], []) := by
  rw [ClientOptions.iacLoop.eq_def]
  simp [hb]

theorem ClientOptions.iacLoop_unknown_cmd (st : OptionState) (c : Nat) (rest : List Nat)
    (hc : TelnetCommands.fromByte c = none) :
    ClientOptions.iacLoop st (TelnetCommands.IAC.value :: c :: rest) =
      ClientOptions.iacLoop st rest := by
  rw [ClientOptions.iacLoop.eq_def]
  simp [hc]

theorem ClientOptions.iacLoop_unknown_opt (st : OptionState) (cmd : TelnetCommands)
    (o : Nat) (rest : List Nat)
    (h4 : cmd = .DO ∨ cmd = .DONT ∨ cmd = .WILL ∨ cmd = .WONT)
    (ho : TelnetOptions.fromByte o = none) :
    ClientOptions.iacLoop st (TelnetCommands.IAC.value :: cmd.value :: o :: rest) =
      ClientOptions.iacLoop st rest := by
  rw [ClientOptions.iacLoop.eq_def]
  simp [TelnetCommands.fromByte_value_cmd, h4, ho]

theorem ClientOptions.iacLoop_known_opt (st : OptionState) (cmd : TelnetCommands)
    (opt : TelnetOptions) (rest : List Nat)
    (h4 : cmd = .DO ∨ cmd = .DONT ∨ cmd = .WILL ∨ cmd = .WONT) :
    ClientOptions.iacLoop st (TelnetCommands.IAC.value :: cmd.value :: opt.value :: rest) =
      match ClientOptions.iac_one st cmd opt with
      | (st1, rep) =>
        match ClientOptions.iacLoop st1 rest with
        | none => none
        | some (st2, rep2, evs2) => some (st2, rep ++ rep2, opt :: evs2) := by
  rw [ClientOptions.iacLoop.eq_def]
  simp [TelnetCommands.fromByte_value_cmd, TelnetOptions.fromByte_value_opt, h4]

theorem ClientOptions.iacLoop_sb (st : OptionState) (rest : List Nat) :
    ClientOptions.iacLoop st (TelnetCommands.IAC.value :: TelnetCommands.SB.value :: rest) =
      match ClientOptions.iac_sb st rest with
      | none => none
      | some (st1, rep, evs, rem) =>
        match ClientOptions.iacLoop st1 rem with
        | none => none
        | some (st2, rep2, evs2) => some (st2, rep ++ rep2, evs ++ evs2) := by
  rw [ClientOptions.iacLoop.eq_def]
  simp only [TelnetCommands.fromByte_value_cmd]
  cases h : ClientOptions.iac_sb st rest <;> simp [h]

theorem ClientOptions.iac_one_spec (st : OptionState) (cmd : TelnetCommands)
    (opt : TelnetOptions) :
    ClientOptions.iac_one st cmd opt = (specUnitEffect st (cmd, opt), specUnitReply (cmd, opt)) := by
  cases cmd <;> rfl

theorem ClientHandler.dispatch_event_on_self (events : List (String × Nat))
    (e : String) (g : Nat) :
    ClientHandler.dispatch_event (ClientHandler.on events e g) e = [g] := by
  induction events with
  | nil => simp [ClientHandler.on, ClientHandler.dispatch_event]
  | cons p rest ih =>
    obtain ⟨k, v⟩ := p
    by_cases hk : k = e
    · simp [ClientHandler.on, ClientHandler.dispatch_event, hk]
    · simp [ClientHandler.on, ClientHandler.dispatch_event, hk, ih]

theorem ClientOptions.dispatch_event_on (handlers : List (TelnetOptions × List Nat))
    (o k : TelnetOptions) (f : Nat) :
    ClientOptions.dispatch_event (ClientOptions.on handlers o f) k =
      ClientOptions.dispatch_event handlers k ++ (if o = k then [f] else []) := by
  induction handlers with
  | nil =>
    by_cases hok : o = k <;>
      simp [ClientOptions.on, ClientOptions.dispatch_event, hok]
  | cons p rest ih =>
    obtain ⟨k', fs⟩ := p
    by_cases hko : k' = o
    · by_cases hkk : k' = k
      · have hok : o = k := hko ▸ hkk
        simp [ClientOptions.on, ClientOptions.dispatch_event, hko, hkk, hok]
      · have hok : ¬o = k := fun h => hkk (hko.trans h)
        simp [ClientOptions.on, ClientOptions.dispatch_event, hko, hkk, hok]
    · by_cases hkk : k' = k
      · have hok : ¬o = k := fun h => hko (hkk.trans h.symm)
        have hko2 : ¬k = o := hkk ▸ hko
        simp [ClientOptions.on, ClientOptions.dispatch_event, hko, hkk, hok, hko2]
      · simp [ClientOptions.on, ClientOptions.dispatch_event, hko, hkk, ih]

theorem ClientOptions.dispatch_event_subscribe_foldl
    (subs : List (TelnetOptions × Nat)) (h0 : List (TelnetOptions × List Nat))
    (k : TelnetOptions) :
    ClientOptions.dispatch_event
        (subs.foldl (fun h s => ClientOptions.on h s.1 s.2) h0) k =
      ClientOptions.dispatch_event h0 k ++
        (subs.filter (fun s => decide (s.1 = k))).map (fun s => s.2) := by
  induction subs generalizing h0 with
  | nil => simp
  | cons s rest ih =>
    obtain ⟨o, f⟩ := s
    by_cases hok : o = k
    · subst hok
      simp [ih, ClientOptions.dispatch_event_on]
    · simp [ih, ClientOptions.dispatch_event_on, hok]

/-! ## Claim theorems -/

/-- C2, counterexample: for the session-level event table, subscribing
callback 0 and then callback 1 to the key "data" via `ClientHandler.on`
and publishing "data" does not invoke both subscribers in registration
order (`[0, 1]`), as the claim states; only the most recently registered
callback is invoked. -/
theorem C2_counterexample :
    ClientHandler.dispatch_event
        (ClientHandler.on (ClientHandler.on [] "data" 0) "data" 1) "data" ≠ [0, 1] ∧
      ClientHandler.dispatch_event
        (ClientHandler.on (ClientHandler.on [] "data" 0) "data" 1) "data" = [1] := by
  constructor
  · simp [ClientHandler.on, ClientHandler.dispatch_event]
  · simp [ClientHandler.on, ClientHandler.dispatch_event]

/-- C2, amended: for option-change keys, `ClientOptions.on` appends to the
key's subscriber list, multiple subscribers per key are allowed, and
publishing a key invokes exactly the callbacks subscribed to that key in
registration order; for session-level string keys, `ClientHandler.on`
stores a single callback per key, overwriting any previous one, so
publishing invokes only the most recently registered callback. -/
theorem C2_event_bus_amended :
    (∀ (subs : List (TelnetOptions × Nat)) (k : TelnetOptions),
      ClientOptions.dispatch_event
          (subs.foldl (fun h s => ClientOptions.on h s.1 s.2) []) k =
        (subs.filter (fun s => decide (s.1 = k))).map (fun s => s.2)) ∧
    (∀ (events : List (String × Nat)) (e : String) (f g : Nat),
      ClientHandler.dispatch_event
          (ClientHandler.on (ClientHandler.on events e f) e g) e = [g]) := by
  constructor
  · intro subs k
    have := ClientOptions.dispatch_event_subscribe_foldl subs [] k
    simpa [ClientOptions.dispatch_event] using this
  · intro events e f g
    exact ClientHandler.dispatch_event_on_self _ e g

/-- C4, counterexample: `stop()` does not leave the session pool empty.
Starting from a running server with one pooled session, after `stop`
returns the pool still holds its (killed and joined) entry. -/
theorem C4_counterexample :
    (TelnetServer.stop
        { stop_signal := false
          client_pool := [{ id := 0, hard_kill_signal := false,
                            thread_alive := true, thread_joined := false }]
          sock_closed := false }).client_pool ≠ [] ∧
      (TelnetServer.stop
        { stop_signal := false
          client_pool := [{ id := 0, hard_kill_signal := false,
                            thread_alive := true, thread_joined := false }]
          sock_closed := false }).client_pool =
        [{ id := 0, hard_kill_signal := true,
           thread_alive := false, thread_joined := true }] := by
  constructor
  · decide
  · decide

/-- C4, amended: `stop()` is idempotent (a second call observes the stop
flag already set and returns the state unchanged) and always returns; a
first call (stop flag unset) closes the listening socket and kills and
joins every pooled session — but the session pool collection keeps its
entries (one per previously pooled session); it is not emptied. -/
theorem C4_stop_amended (s : TelnetServerState) :
    TelnetServer.stop (TelnetServer.stop s) = TelnetServer.stop s ∧
    (s.stop_signal = false →
      (TelnetServer.stop s).sock_closed = true ∧
      (TelnetServer.stop s).client_pool.length = s.client_pool.length ∧
      ∀ c ∈ (TelnetServer.stop s).client_pool,
        c.hard_kill_signal = true ∧ c.thread_joined = true ∧ c.thread_alive = false) := by
  constructor
  · by_cases h : s.stop_signal = true
    · simp [TelnetServer.stop, h]
    · simp only [Bool.not_eq_true] at h
      simp [TelnetServer.stop, h]
  · intro h
    refine ⟨by simp [TelnetServer.stop, h], by simp [TelnetServer.stop, h], ?_⟩
    intro c hc
    simp only [TelnetServer.stop, h, Bool.false_eq_true, if_false,
      List.mem_map] at hc
    obtain ⟨c0, -, rfl⟩ := hc
    exact ⟨rfl, rfl, rfl⟩

/-- C4, witness for the amended claim at a concrete one-session server
state whose stop flag is unset. -/
theorem C4_stop_amended_witness :
    ({ stop_signal := false
       client_pool := [{ id := 0, hard_kill_signal := false,
                         thread_alive := true, thread_joined := false }]
       sock_closed := false } : TelnetServerState).stop_signal = false ∧
    TelnetServer.stop (TelnetServer.stop
        { stop_signal := false
          client_pool := [{ id := 0, hard_kill_signal := false,
                            thread_alive := true, thread_joined := false }]
          sock_closed := false }) =
      TelnetServer.stop
        { stop_signal := false
          client_pool := [{ id := 0, hard_kill_signal := false,
                            thread_alive := true, thread_joined := false }]
          sock_closed := false } ∧
    (TelnetServer.stop
        { stop_signal := false
          client_pool := [{ id := 0, hard_kill_signal := false,
                            thread_alive := true, thread_joined := false }]
          sock_closed := false }).sock_closed = true ∧
    (TelnetServer.stop
        { stop_signal := false
          client_pool := [{ id := 0, hard_kill_signal := false,
                            thread_alive := true, thread_joined := false }]
          sock_closed := false }).client_pool.length =
      ({ stop_signal := false
         client_pool := [{ id := 0, hard_kill_signal := false,
                           thread_alive := true, thread_joined := false }]
         sock_closed := false } : TelnetServerState).client_pool.length ∧
    ∀ c ∈ (TelnetServer.stop
        { stop_signal := false
          client_pool := [{ id := 0, hard_kill_signal := false,
                            thread_alive := true, thread_joined := false }]
          sock_closed := false }).client_pool,
      c.hard_kill_signal = true ∧ c.thread_joined = true ∧ c.thread_alive = false :=
  ⟨rfl, (C4_stop_amended _).1,
   ((C4_stop_amended _).2 rfl).1,
   ((C4_stop_amended _).2 rfl).2.1,
   ((C4_stop_amended _).2 rfl).2.2⟩

/-- C8: `ClientOptions.send` applied to the three handshake pairs yields
exactly the concatenation `IAC WILL ECHO`, `IAC WILL SUPPRESS_GO_AHEAD`,
`IAC DO NEGOTIATE_ABOUT_WINDOW_SIZE`, in that order — the bytes
`ClientHandler.run` sends right after the initial bounded-time read. -/
theorem C8_handshake :
    ClientOptions.send
        [(.WILL, .ECHO), (.WILL, .SUPPRESS_GO_AHEAD),
         (.DO, .NEGOTIATE_ABOUT_WINDOW_SIZE)] =
      ClientOptions.send_one .WILL .ECHO ++
        ClientOptions.send_one .WILL .SUPPRESS_GO_AHEAD ++
        ClientOptions.send_one .DO .NEGOTIATE_ABOUT_WINDOW_SIZE ∧
    ClientOptions.send
        [(.WILL, .ECHO), (.WILL, .SUPPRESS_GO_AHEAD),
         (.DO, .NEGOTIATE_ABOUT_WINDOW_SIZE)] =
      [255, 251, 1, 255, 251, 3, 255, 253, 31] := by
  constructor <;> rfl

/-- C9: the address-family selector of the listener configuration never
changes the address family of the created socket — both values of the
`ipv6` flag produce an `AF_INET` socket. -/
theorem C9_socket_family :
    ∀ ipv6 : Bool, TelnetServer.socketFamily ipv6 = AF_INET ∧
      TelnetServer.socketFamily true = TelnetServer.socketFamily false := by
  decide

/-- C10: the chunk classifier `__process_opts` requires a non-empty chunk:
on the empty byte string it fails (the `data[0]` index raises) rather than
returning `false`.  The initial-handshake path of `ClientHandler.run`
passes the first read's result to it unguarded, so a peer closing during
the handshake window reaches this failure. -/
theorem C10_process_opts_empty :
    ∀ st : OptionState, ClientHandler.process_opts st [] = none ∧
      ∀ b : Bool, ClientHandler.process_opts st [] ≠ some (st, [], [], b) := by
  intro st
  exact ⟨rfl, fun b => by simp [ClientHandler.process_opts]⟩

theorem TelnetServer.cleanDeadAux_mem_alive_aux (n : Nat) :
    ∀ (pool : List ClientConnection) (i : Nat) (c : ClientConnection),
      pool.length - i ≤ n → c ∈ pool → c.isDead = false →
      c ∈ TelnetServer.cleanDeadAux pool i := by
  induction n with
  | zero =>
    intro pool i c hb hc ha
    rw [TelnetServer.cleanDeadAux.eq_def, dif_neg (by omega)]
    exact hc
  | succ n ih =>
    intro pool i c hb hc ha
    rw [TelnetServer.cleanDeadAux.eq_def]
    split
    · rename_i h
      split
      · rename_i hdead
        have hm : pool.get ⟨i, h⟩ ∈ pool := pool.get_mem i h
        have hlen := List.length_erase_of_mem hm
        refine ih _ _ c (by omega) ?_ ha
        refine (List.mem_erase_of_ne ?_).mpr hc
        intro he
        rw [← he, ha] at hdead
        exact absurd hdead (by simp)
      · exact ih pool (i + 1) c (by omega) hc ha
    · exact hc

theorem TelnetServer.cleanDeadAux_cons_alive_aux (n : Nat) :
    ∀ (x : ClientConnection) (pool : List ClientConnection) (i : Nat),
      pool.length - i ≤ n → x.isDead = false →
      TelnetServer.cleanDeadAux (x :: pool) (i + 1) =
        x :: TelnetServer.cleanDeadAux pool i := by
  induction n with
  | zero =>
    intro x pool i hb hx
    conv_lhs => rw [TelnetServer.cleanDeadAux.eq_def]
    conv_rhs => rw [TelnetServer.cleanDeadAux.eq_def]
    rw [dif_neg (by simp only [List.length_cons]; omega), dif_neg (by omega)]
  | succ n ih =>
    intro x pool i hb hx
    by_cases h : i < pool.length
    · have h' : i + 1 < (x :: pool).length := by
        simp only [List.length_cons]; omega
      conv_lhs => rw [TelnetServer.cleanDeadAux.eq_def]
      conv_rhs => rw [TelnetServer.cleanDeadAux.eq_def]
      rw [dif_pos h', dif_pos h]
      have hget : (x :: pool).get ⟨i + 1, h'⟩ = pool.get ⟨i, h⟩ := rfl
      rw [hget]
      by_cases hdead : (pool.get ⟨i, h⟩).isDead
      · rw [if_pos hdead, if_pos hdead]
        have hne : x ≠ pool.get ⟨i, h⟩ := by
          intro he
          rw [← he, hx] at hdead
          exact absurd hdead (by simp)
        have herase : (x :: pool).erase (pool.get ⟨i, h⟩) =
            x :: pool.erase (pool.get ⟨i, h⟩) := by
          rw [List.erase_cons,
            if_neg (by simp only [beq_iff_eq, ← List.get_eq_getElem]; exact hne)]
        rw [herase]
        have hm : pool.get ⟨i, h⟩ ∈ pool := pool.get_mem i h
        have hlen := List.length_erase_of_mem hm
        exact ih x _ (i + 1) (by omega) hx
      · rw [if_neg hdead, if_neg hdead]
        exact ih x pool (i + 1) (by omega) hx
    · conv_lhs => rw [TelnetServer.cleanDeadAux.eq_def]
      conv_rhs => rw [TelnetServer.cleanDeadAux.eq_def]
      rw [dif_neg (by simp only [List.length_cons]; omega), dif_neg (by omega)]

theorem TelnetServer.cleanDeadAux_all_alive_aux (n : Nat) :
    ∀ (pool : List ClientConnection) (i : Nat),
      pool.length - i ≤ n → (∀ c ∈ pool, c.isDead = false) →
      TelnetServer.cleanDeadAux pool i = pool := by
  induction n with
  | zero =>
    intro pool i hb ha
    rw [TelnetServer.cleanDeadAux.eq_def, dif_neg (by omega)]
  | succ n ih =>
    intro pool i hb ha
    rw [TelnetServer.cleanDeadAux.eq_def]
    split
    · rename_i h
      split
      · rename_i hdead
        have := ha _ (pool.get_mem i h)
        rw [this] at hdead
        exact absurd hdead (by simp)
      · exact ih pool (i + 1) (by omega) ha
    · rfl

/-- C3, counterexample: one housekeeping sweep does not remove every dead
entry.  With a pool of two entries both of which have their kill signal
set and their worker exited, the sweep removes only the first one — the
Python loop removes list elements while iterating by index, so the entry
that slides into the removed slot is skipped. -/
theorem C3_counterexample :
    ({ id := 1, hard_kill_signal := true, thread_alive := false,
       thread_joined := false } : ClientConnection).isDead = true ∧
    TelnetServer.cleanDeadThreads
        [{ id := 0, hard_kill_signal := true, thread_alive := false, thread_joined := false },
         { id := 1, hard_kill_signal := true, thread_alive := false, thread_joined := false }] =
      [{ id := 1, hard_kill_signal := true, thread_alive := false, thread_joined := false }] := by
  constructor
  · decide
  · simp [TelnetServer.cleanDeadThreads, TelnetServer.cleanDeadAux, ClientConnection.isDead,
      List.erase_cons]

/-- C3, amended: one housekeeping sweep never removes an entry whose worker
is alive and whose kill signal is unset (every such entry is still in the
pool afterwards), and when exactly one entry of the pool is dead — its
kill signal set or its worker exited — while all the others are alive, the
sweep removes exactly that entry and no other.  (When several dead entries
are adjacent the sweep can miss some of them, as the counterexample
shows; the missed ones are collected by a later sweep.) -/
theorem C3_clean_dead_amended :
    (∀ (pool : List ClientConnection) (c : ClientConnection),
      c ∈ pool → c.isDead = false → c ∈ TelnetServer.cleanDeadThreads pool) ∧
    (∀ (l₁ : List ClientConnection) (e : ClientConnection) (l₂ : List ClientConnection),
      (∀ c ∈ l₁, c.isDead = false) → (∀ c ∈ l₂, c.isDead = false) → e.isDead = true →
      TelnetServer.cleanDeadThreads (l₁ ++ e :: l₂) = l₁ ++ l₂) := by
  constructor
  · intro pool c hc ha
    exact TelnetServer.cleanDeadAux_mem_alive_aux pool.length pool 0 c (by omega) hc ha
  · intro l₁
    induction l₁ with
    | nil =>
      intro e l₂ h1 h2 he
      simp only [List.nil_append]
      rw [TelnetServer.cleanDeadThreads, TelnetServer.cleanDeadAux.eq_def,
        dif_pos (by simp [List.length_cons])]
      have hget : (e :: l₂).get ⟨0, by simp [List.length_cons]⟩ = e := rfl
      rw [hget, if_pos he, List.erase_cons_head]
      exact TelnetServer.cleanDeadAux_all_alive_aux l₂.length l₂ 1 (by omega) h2
    | cons a l₁ ih =>
      intro e l₂ h1 h2 he
      have ha : a.isDead = false := h1 a (by simp)
      simp only [List.cons_append]
      rw [TelnetServer.cleanDeadThreads, TelnetServer.cleanDeadAux.eq_def,
        dif_pos (by simp [List.length_cons])]
      have hget : (a :: (l₁ ++ e :: l₂)).get ⟨0, by simp [List.length_cons]⟩ = a := rfl
      rw [hget, if_neg (by rw [ha]; simp)]
      rw [TelnetServer.cleanDeadAux_cons_alive_aux (l₁ ++ e :: l₂).length a
        (l₁ ++ e :: l₂) 0 (by omega) ha]
      rw [← TelnetServer.cleanDeadThreads, ih e l₂ (fun c hc => h1 c (by simp [hc])) h2 he]

/-- C3, witness for the amended claim: an alive entry survives a sweep, and
a sweep of a pool holding exactly one dead entry between two alive ones
removes exactly the dead entry. -/
theorem C3_clean_dead_amended_witness :
    (({ id := 0, hard_kill_signal := false, thread_alive := true,
        thread_joined := false } : ClientConnection) ∈
        [({ id := 0, hard_kill_signal := false, thread_alive := true,
            thread_joined := false } : ClientConnection)] ∧
      ({ id := 0, hard_kill_signal := false, thread_alive := true,
         thread_joined := false } : ClientConnection).isDead = false ∧
      ({ id := 0, hard_kill_signal := false, thread_alive := true,
         thread_joined := false } : ClientConnection) ∈
        TelnetServer.cleanDeadThreads
          [{ id := 0, hard_kill_signal := false, thread_alive := true,
             thread_joined := false }]) ∧
    ((∀ c ∈ [({ id := 0, hard_kill_signal := false, thread_alive := true,
                thread_joined := false } : ClientConnection)], c.isDead = false) ∧
      (∀ c ∈ [({ id := 2, hard_kill_signal := false, thread_alive := true,
                 thread_joined := false } : ClientConnection)], c.isDead = false) ∧
      ({ id := 1, hard_kill_signal := true, thread_alive := false,
         thread_joined := false } : ClientConnection).isDead = true ∧
      TelnetServer.cleanDeadThreads
          ([{ id := 0, hard_kill_signal := false, thread_alive := true,
              thread_joined := false }] ++
            { id := 1, hard_kill_signal := true, thread_alive := false,
              thread_joined := false } ::
              [{ id := 2, hard_kill_signal := false, thread_alive := true,
                 thread_joined := false }]) =
        [{ id := 0, hard_kill_signal := false, thread_alive := true,
           thread_joined := false }] ++
          [{ id := 2, hard_kill_signal := false, thread_alive := true,
             thread_joined := false }]) :=
  ⟨⟨by decide, by decide,
    C3_clean_dead_amended.1 _ _ (by decide) (by decide)⟩,
   by decide, by decide, by decide,
   C3_clean_dead_amended.2 _ _ _ (by decide) (by decide) (by decide)⟩

theorem ClientOptions.scanUntilSE_eq_none (l : List Nat)
    (h : TelnetCommands.SE.value ∉ l) : ClientOptions.scanUntilSE l = none := by
  induction l with
  | nil => rfl
  | cons b rest ih =>
    rw [ClientOptions.scanUntilSE]
    rw [if_neg (by intro hb; exact h (by simp [hb]))]
    exact ih (fun hm => h (by simp [hm]))

/-- C1: feeding a concatenated sequence of well-formed negotiation units
`IAC cmd opt` (cmd among DO/DONT/WILL/WONT, opt recognized) to
`ClientOptions.iac` applies each unit's effect to the option state in
order (DO/WILL set the option true, DONT/WONT set it false), replies with
exactly the concatenation of `IAC DO opt` per WILL unit and `IAC DONT opt`
per WONT unit (nothing for DO/DONT), and publishes one option event per
unit, in unit order. -/
theorem C1_negotiation_sequence (units : List (TelnetCommands × TelnetOptions))
    (st : OptionState)
    (h4 : ∀ u ∈ units, u.1 = .DO ∨ u.1 = .DONT ∨ u.1 = .WILL ∨ u.1 = .WONT) :
    ClientOptions.iac st (units.map encodeUnit).flatten =
      some (units.foldl specUnitEffect st,
            (units.map specUnitReply).flatten,
            units.map (fun u => u.2)) := by
  unfold ClientOptions.iac
  induction units generalizing st with
  | nil => simp [ClientOptions.iacLoop_nil]
  | cons u us ih =>
    obtain ⟨c, o⟩ := u
    have hc := h4 (c, o) (by simp)
    simp only [List.map_cons, List.flatten_cons, encodeUnit, List.cons_append,
      List.nil_append]
    rw [ClientOptions.iacLoop_known_opt st c o _ hc]
    rw [ClientOptions.iac_one_spec]
    dsimp only
    rw [ih (specUnitEffect st (c, o)) (fun u hu => h4 u (by simp [hu]))]
    simp

/-- C1, witness: the two-unit sequence `DO ECHO` then `WILL window-size`
fed to a fresh option state. -/
theorem C1_negotiation_sequence_witness :
    (∀ u ∈ [((TelnetCommands.DO : TelnetCommands), (TelnetOptions.ECHO : TelnetOptions)),
            (.WILL, .NEGOTIATE_ABOUT_WINDOW_SIZE)],
      u.1 = TelnetCommands.DO ∨ u.1 = TelnetCommands.DONT ∨
        u.1 = TelnetCommands.WILL ∨ u.1 = TelnetCommands.WONT) ∧
    ClientOptions.iac OptionState.init
        (([((TelnetCommands.DO : TelnetCommands), (TelnetOptions.ECHO : TelnetOptions)),
           (.WILL, .NEGOTIATE_ABOUT_WINDOW_SIZE)].map encodeUnit).flatten) =
      some ([((TelnetCommands.DO : TelnetCommands), (TelnetOptions.ECHO : TelnetOptions)),
             (.WILL, .NEGOTIATE_ABOUT_WINDOW_SIZE)].foldl specUnitEffect OptionState.init,
            ([((TelnetCommands.DO : TelnetCommands), (TelnetOptions.ECHO : TelnetOptions)),
              (.WILL, .NEGOTIATE_ABOUT_WINDOW_SIZE)].map specUnitReply).flatten,
            [((TelnetCommands.DO : TelnetCommands), (TelnetOptions.ECHO : TelnetOptions)),
             (.WILL, .NEGOTIATE_ABOUT_WINDOW_SIZE)].map (fun u => u.2)) :=
  ⟨by decide, C1_negotiation_sequence _ _ (by decide)⟩

/-- C5: for width and height in `[0, 65535]`, feeding the encoded
window-size subnegotiation `IAC SB NAWS w-hi w-lo h-hi h-lo IAC SE` to the
engine stores exactly `(w, h)` as the window-size entry, publishes one
window-size option event, and produces no reply bytes. -/
theorem C5_naws_roundtrip (st : OptionState) (w h : Nat)
    (hw : w ≤ 65535) (hh : h ≤ 65535) :
    ClientOptions.iac st (encodeNaws w h) =
      some ({ st with window_size := (w, h) }, [], [.NEGOTIATE_ABOUT_WINDOW_SIZE]) := by
  unfold ClientOptions.iac encodeNaws
  rw [ClientOptions.iacLoop_sb]
  have hw' : w / 256 * 256 + w % 256 = w := by omega
  have hh' : h / 256 * 256 + h % 256 = h := by omega
  simp [ClientOptions.iac_sb, TelnetOptions.fromByte_value_opt, ClientOptions.iacLoop_nil,
    hw', hh']

/-- C5, witness: the spec's scenario 3 pair, width 80 and height 24. -/
theorem C5_naws_roundtrip_witness :
    (80 : Nat) ≤ 65535 ∧ (24 : Nat) ≤ 65535 ∧
    ClientOptions.iac OptionState.init (encodeNaws 80 24) =
      some ({ OptionState.init with window_size := (80, 24) }, [],
            [.NEGOTIATE_ABOUT_WINDOW_SIZE]) :=
  ⟨by decide, by decide, C5_naws_roundtrip _ _ _ (by decide) (by decide)⟩

/-- C6, counterexample: a chunk holding a window-size subnegotiation whose
terminator byte SE never appears is not reported as a decode failure — the
engine reads the fixed 4-byte payload, silently skips up to two further
bytes without checking them, and succeeds. -/
theorem C6_counterexample :
    TelnetCommands.SE.value ∉ ([255, 250, 31, 0, 80, 0, 24] : List Nat) ∧
    ClientOptions.iac OptionState.init [255, 250, 31, 0, 80, 0, 24] ≠ none ∧
    ClientOptions.iac OptionState.init [255, 250, 31, 0, 80, 0, 24] =
      some ({ OptionState.init with window_size := (80, 24) }, [],
            [.NEGOTIATE_ABOUT_WINDOW_SIZE]) := by
  have hform : ([255, 250, 31, 0, 80, 0, 24] : List Nat) =
      TelnetCommands.IAC.value :: TelnetCommands.SB.value :: 31 :: [0, 80, 0, 24] := rfl
  refine ⟨by decide, ?_, ?_⟩
  · rw [hform, ClientOptions.iac, ClientOptions.iacLoop_sb]
    simp [ClientOptions.iac_sb, TelnetOptions.fromByte, ClientOptions.iacLoop_nil]
  · rw [hform, ClientOptions.iac, ClientOptions.iacLoop_sb]
    simp [ClientOptions.iac_sb, TelnetOptions.fromByte, ClientOptions.iacLoop_nil,
      OptionState.init]

/-- C6, amended: a subnegotiation whose option byte is not the window-size
id and whose terminator byte never appears before the buffer is exhausted
is a decode failure (the call terminates with an error rather than looping
forever); a window-size subnegotiation is a decode failure when fewer than
4 payload bytes remain, but with a full 4-byte payload it succeeds without
ever checking for the terminator. -/
theorem C6_sb_failure_amended :
    (∀ (st : OptionState) (b : Nat) (rest : List Nat),
      TelnetOptions.fromByte b ≠ some .NEGOTIATE_ABOUT_WINDOW_SIZE →
      TelnetCommands.SE.value ∉ rest →
      ClientOptions.iac st
        (TelnetCommands.IAC.value :: TelnetCommands.SB.value :: b :: rest) = none) ∧
    (∀ (st : OptionState) (rest : List Nat),
      rest.length < 4 →
      ClientOptions.iac st
        (TelnetCommands.IAC.value :: TelnetCommands.SB.value ::
          TelnetOptions.NEGOTIATE_ABOUT_WINDOW_SIZE.value :: rest) = none) := by
  constructor
  · intro st b rest hb hse
    unfold ClientOptions.iac
    rw [ClientOptions.iacLoop_sb]
    match hfb : TelnetOptions.fromByte b with
    | none =>
      simp [ClientOptions.iac_sb, hfb, ClientOptions.scanUntilSE_eq_none rest hse]
    | some opt =>
      have hne : ¬opt = TelnetOptions.NEGOTIATE_ABOUT_WINDOW_SIZE := by
        intro he; exact hb (by rw [hfb, he])
      simp [ClientOptions.iac_sb, hfb, hne, ClientOptions.scanUntilSE_eq_none rest hse]
  · intro st rest hlen
    unfold ClientOptions.iac
    rw [ClientOptions.iacLoop_sb]
    rcases rest with _ | ⟨a, _ | ⟨b, _ | ⟨c, _ | ⟨d, rest⟩⟩⟩⟩
    · simp [ClientOptions.iac_sb, TelnetOptions.fromByte_value_opt]
    · simp [ClientOptions.iac_sb, TelnetOptions.fromByte_value_opt]
    · simp [ClientOptions.iac_sb, TelnetOptions.fromByte_value_opt]
    · simp [ClientOptions.iac_sb, TelnetOptions.fromByte_value_opt]
    · simp only [List.length_cons] at hlen; omega

/-- C6, witness for the amended claim: an unterminated echo subnegotiation
fails, and a window-size subnegotiation with a 2-byte payload fails. -/
theorem C6_sb_failure_amended_witness :
    TelnetOptions.fromByte 1 ≠ some .NEGOTIATE_ABOUT_WINDOW_SIZE ∧
    TelnetCommands.SE.value ∉ ([65, 66] : List Nat) ∧
    ClientOptions.iac OptionState.init
      (TelnetCommands.IAC.value :: TelnetCommands.SB.value :: 1 :: [65, 66]) = none ∧
    ([0, 80] : List Nat).length < 4 ∧
    ClientOptions.iac OptionState.init
      (TelnetCommands.IAC.value :: TelnetCommands.SB.value ::
        TelnetOptions.NEGOTIATE_ABOUT_WINDOW_SIZE.value :: [0, 80]) = none :=
  ⟨by decide, by decide, C6_sb_failure_amended.1 _ _ _ (by decide) (by decide),
   by decide, C6_sb_failure_amended.2 _ _ (by decide)⟩

/-- C7: a unit with an unrecognized command byte after IAC is skipped
consuming exactly the escape and command bytes, and a recognized
DO/DONT/WILL/WONT command followed by an unrecognized option byte is
skipped consuming exactly the escape, command and option bytes — in both
cases the option state is unchanged, no reply bytes and no event are
produced for that unit, and decoding continues correctly with whatever
follows. -/
theorem C7_skip_unrecognized :
    (∀ (st : OptionState) (c : Nat) (rest : List Nat),
      TelnetCommands.fromByte c = none →
      ClientOptions.iac st (TelnetCommands.IAC.value :: c :: rest) =
        ClientOptions.iac st rest) ∧
    (∀ (st : OptionState) (cmd : TelnetCommands) (o : Nat) (rest : List Nat),
      (cmd = .DO ∨ cmd = .DONT ∨ cmd = .WILL ∨ cmd = .WONT) →
      TelnetOptions.fromByte o = none →
      ClientOptions.iac st (TelnetCommands.IAC.value :: cmd.value :: o :: rest) =
        ClientOptions.iac st rest) :=
  ⟨fun st c rest hc => ClientOptions.iacLoop_unknown_cmd st c rest hc,
   fun st cmd o rest h4 ho => ClientOptions.iacLoop_unknown_opt st cmd o rest h4 ho⟩

/-- C7, witness: command byte 0x63 after IAC is skipped with a valid DO
ECHO unit following, and `WILL 0x63` (the spec's scenario 4) is skipped. -/
theorem C7_skip_unrecognized_witness :
    TelnetCommands.fromByte 99 = none ∧
    ClientOptions.iac OptionState.init
        (TelnetCommands.IAC.value :: 99 :: [255, 253, 1]) =
      ClientOptions.iac OptionState.init [255, 253, 1] ∧
    (TelnetCommands.WILL = TelnetCommands.DO ∨ TelnetCommands.WILL = TelnetCommands.DONT ∨
      TelnetCommands.WILL = TelnetCommands.WILL ∨ TelnetCommands.WILL = TelnetCommands.WONT) ∧
    TelnetOptions.fromByte 99 = none ∧
    ClientOptions.iac OptionState.init
        (TelnetCommands.IAC.value :: TelnetCommands.WILL.value :: 99 :: []) =
      ClientOptions.iac OptionState.init [] :=
  ⟨by decide, C7_skip_unrecognized.1 _ _ _ (by decide),
   by decide, by decide, C7_skip_unrecognized.2 _ _ _ _ (by decide) (by decide)⟩
